import Mathlib

/-!
The rule `no-tsx-without-jsx` of eslint-plugin-no-tsx-without-jsx.

A shallow embedding of the two copies of the rule,
`src/rules/noTsxWithoutJsx.ts` (authored, namespace `Src`) and
`dist/rules/noTsxWithoutJsx.js` (compiled, namespace `Dist`).

* A closure variable (`let containsJSX`) is a cell of a heap of booleans; every
  activation of `create` that reaches the `let` allocates a fresh cell.
* A callback takes its node argument and the heap and returns the new heap
  together with the descriptors it passed to `context.report`.
* A visitor map is the list of the entries of the returned object literal.
-/

namespace NoTsxWithoutJsx

/-! ## Data model -/

/-- An ESTree node: its `type` and its child nodes. -/
inductive Node where
  | mk (type : String) (children : List Node)

/-- The `type` field of a node. -/
def Node.type : Node → String
  | .mk t _ => t

/-- The child nodes of a node. -/
def Node.children : Node → List Node
  | .mk _ cs => cs

/-- A line and column pair. -/
structure Position where
  line : Nat
  column : Nat
deriving DecidableEq, Repr

/-- The `loc` of a token: start and end positions. -/
structure SourceLocation where
  start : Position
  stop : Position
deriving DecidableEq, Repr

/-- A lexical token with its location. -/
structure Token where
  type : String
  value : String
  loc : SourceLocation
deriving DecidableEq, Repr

/-- The part of `context.sourceCode` the rule uses: `getFirstToken(node)`, which
is `null` (here `none`) when the node has no token. -/
structure SourceCode where
  getFirstToken : Node → Option Token

/-- The part of the rule context the rule reads. -/
structure Context where
  filename : String
  sourceCode : SourceCode

/-- A value stored in a field of a report descriptor. -/
inductive Value where
  | node (n : Node)
  | loc (l : SourceLocation)
  | str (s : String)

/-- A report descriptor: the fields of the object literal passed to
`context.report`, in source order. -/
abbrev Descriptor := List (String × Value)

/-- The `messageId` field of a descriptor, when it is present and a string. -/
def Descriptor.messageId (d : Descriptor) : Option String :=
  match d.lookup "messageId" with
  | some (.str s) => some s
  | _ => none

/-- The heap of closure variables: one boolean cell per `let containsJSX`. -/
abbrev Heap := List Bool

/-- A visitor callback: node argument and heap in, new heap and the descriptors
passed to `context.report` out. -/
abbrev Callback := Node → Heap → Heap × List Descriptor

/-- A visitor map: the entries of the object returned by `create`. -/
abbrev VisitorMap := List (String × Callback)

/-- The keys of a visitor map. -/
def VisitorMap.keys (visitor : VisitorMap) : List String :=
  visitor.map Prod.fst

/-- ECMAScript `String.prototype.endsWith(searchString)` with the default end
position: false when the search string is longer than the string, else the
comparison of the last `searchLength` characters with the search string. -/
def endsWith (s searchString : String) : Bool :=
  let len := s.data.length
  let searchLength := searchString.data.length
  if len < searchLength then false
  else decide (s.data.drop (len - searchLength) = searchString.data)

/-! ## The authored rule, `src/rules/noTsxWithoutJsx.ts` -/

namespace Src

/-- The `create` function of the authored rule. -/
def create (context : Context) (heap : Heap) : VisitorMap × Heap :=
  let filename := context.filename
  if !(endsWith filename ".tsx") then
    ([], heap)
  else
    let containsJSX := heap.length
    let heap := heap ++ [false]
    ([ ("JSXElement", fun _ h => (h.set containsJSX true, [])),
       ("JSXFragment", fun _ h => (h.set containsJSX true, [])),
       ("Program:exit", fun node h =>
          if !(h.getD containsJSX false) then
            let sourceCode := context.sourceCode
            let firstToken := sourceCode.getFirstToken node
            match firstToken with
            | some firstToken =>
              (h, [[("loc", Value.loc firstToken.loc), ("messageId", Value.str "noJsxInTsx")]])
            | none => (h, [])
          else (h, [])) ],
     heap)

end Src

/-! ## The compiled rule, `dist/rules/noTsxWithoutJsx.js` -/

namespace Dist

/-- The `create` function of the compiled rule. -/
def create (context : Context) (heap : Heap) : VisitorMap × Heap :=
  let filename := context.filename
  if !(endsWith filename ".tsx") then
    ([], heap)
  else
    let containsJSX := heap.length
    let heap := heap ++ [false]
    ([ ("JSXElement", fun _ h => (h.set containsJSX true, [])),
       ("JSXFragment", fun _ h => (h.set containsJSX true, [])),
       ("Program:exit", fun node h =>
          if !(h.getD containsJSX false) then
            (h, [[("node", Value.node node), ("messageId", Value.str "noJsxInTsx")]])
          else (h, [])) ],
     heap)

end Dist

/-! ## The host: callback invocation and traversal -/

/-- One callback invocation by the host: the key under which the callback is
registered and the node passed to it. -/
structure Invocation where
  key : String
  node : Node

/-- The host invokes the callback registered under `key`, if there is one. -/
def invoke (visitor : VisitorMap) (key : String) (node : Node) (heap : Heap) :
    Heap × List Descriptor :=
  match visitor.lookup key with
  | some callback => callback node heap
  | none => (heap, [])

/-- A sequence of callback invocations on one visitor map; the reports are
collected in order. -/
def runCallbacks (visitor : VisitorMap) : List Invocation → Heap → Heap × List Descriptor
  | [], heap => (heap, [])
  | e :: rest, heap =>
    let r1 := invoke visitor e.key e.node heap
    let r2 := runCallbacks visitor rest r1.1
    (r2.1, r1.2 ++ r2.2)

/-- One activation of a rule on a file: `create` is called on the context, then
the host runs the given callback invocations; the result is the list of
descriptors reported. -/
def lint (create : Context → Heap → VisitorMap × Heap) (context : Context)
    (events : List Invocation) (heap : Heap) : List Descriptor :=
  let r := create context heap
  (runCallbacks r.1 events r.2).2

mutual
/-- The node callbacks of a traversal of a subtree, in visit order: on entering
a node the host dispatches it under its `type`, a parent before its children. A
key ending in `:exit` is an exit selector and is never dispatched on entering a
node. -/
def visit : Node → List Invocation
  | .mk t cs => (if endsWith t ":exit" then [] else [⟨t, .mk t cs⟩]) ++ visitAll cs
/-- The node callbacks of a list of sibling subtrees, left to right. -/
def visitAll : List Node → List Invocation
  | [] => []
  | c :: cs => visit c ++ visitAll cs
end

/-- A file traversal: the node callbacks of every node of the program, then
`Program:exit` once, with the program node. -/
def traversal (program : Node) : List Invocation :=
  visit program ++ [⟨"Program:exit", program⟩]

mutual
/-- Whether the subtree has a node of the given type, at any depth. -/
def containsType (ty : String) : Node → Bool
  | .mk t cs => t == ty || containsTypeAll ty cs
/-- Whether one of the subtrees has a node of the given type. -/
def containsTypeAll (ty : String) : List Node → Bool
  | [] => false
  | c :: cs => containsType ty c || containsTypeAll ty cs
end

/-- Whether the invocation is of the `JSXElement` or the `JSXFragment` callback. -/
def Invocation.isJSX (e : Invocation) : Bool :=
  e.key == "JSXElement" || e.key == "JSXFragment"

/-- Whether the invocation is of the `Program:exit` callback. -/
def Invocation.isProgramExit (e : Invocation) : Bool :=
  e.key == "Program:exit"

/-! ## Proof devices: the common shape of the two copies -/

/-- What `Program:exit` of the authored rule reports when the flag is unset: a
descriptor at the `loc` of the first token, or nothing without a first token. -/
def Src.exitReport (context : Context) (node : Node) : List Descriptor :=
  match context.sourceCode.getFirstToken node with
  | some firstToken =>
    [[("loc", Value.loc firstToken.loc), ("messageId", Value.str "noJsxInTsx")]]
  | none => []

/-- What `Program:exit` of the compiled rule reports when the flag is unset: a
descriptor at the node. -/
def Dist.exitReport (node : Node) : List Descriptor :=
  [[("node", Value.node node), ("messageId", Value.str "noJsxInTsx")]]

/-- The three-entry visitor map of either copy, over the cell `c` and what
`Program:exit` reports when the flag is unset. -/
def ruleVisitor (exitReport : Node → List Descriptor) (c : Nat) : VisitorMap :=
  [ ("JSXElement", fun _ h => (h.set c true, [])),
    ("JSXFragment", fun _ h => (h.set c true, [])),
    ("Program:exit", fun node h =>
       if !(h.getD c false) then (h, exitReport node) else (h, [])) ]

/-- The reports of a sequence of invocations as a function of the value of the
flag before the first of them. -/
def reportsFrom (exitReport : Node → List Descriptor) : Bool → List Invocation → List Descriptor
  | _, [] => []
  | flag, e :: rest =>
    if e.isJSX then reportsFrom exitReport true rest
    else if e.isProgramExit then
      (if flag then [] else exitReport e.node) ++ reportsFrom exitReport flag rest
    else reportsFrom exitReport flag rest

/-! ## Two activations on one heap -/

/-- Which copy of the rule is activated. -/
inductive Copy where
  | authored
  | compiled

/-- The `create` function of a copy. -/
def Copy.create : Copy → Context → Heap → VisitorMap × Heap
  | .authored => Src.create
  | .compiled => Dist.create

/-- Which of two activations a callback invocation is made on. -/
inductive Target where
  | first
  | second
deriving DecidableEq

/-- An interleaving of callback invocations on two visitor maps that share the
heap; the reports made through each visitor map are collected separately. -/
def runInterleaved (visitorA visitorB : VisitorMap) :
    List (Target × Invocation) → Heap → Heap × (List Descriptor × List Descriptor)
  | [], heap => (heap, [], [])
  | (.first, e) :: rest, heap =>
    let r1 := invoke visitorA e.key e.node heap
    let r2 := runInterleaved visitorA visitorB rest r1.1
    (r2.1, r1.2 ++ r2.2.1, r2.2.2)
  | (.second, e) :: rest, heap =>
    let r1 := invoke visitorB e.key e.node heap
    let r2 := runInterleaved visitorA visitorB rest r1.1
    (r2.1, r2.2.1, r1.2 ++ r2.2.2)

/-- The invocations of an interleaving that are made on the given activation, in
order. -/
def callbacksOf (target : Target) : List (Target × Invocation) → List Invocation
  | [] => []
  | (t, e) :: rest =>
    if t = target then e :: callbacksOf target rest else callbacksOf target rest

/-- Two activations on one heap: `create` is called for the first, the host runs
some of its callbacks, `create` is called for the second, and the host runs an
interleaving of callbacks of both. The result is the reports made through the
first and through the second activation. -/
def lintTwo (createA createB : Context → Heap → VisitorMap × Heap)
    (contextA contextB : Context) (before : List Invocation)
    (schedule : List (Target × Invocation)) (heap : Heap) :
    List Descriptor × List Descriptor :=
  let a := createA contextA heap
  let r0 := runCallbacks a.1 before a.2
  let b := createB contextB r0.1
  let r := runInterleaved a.1 b.1 schedule b.2
  (r0.2 ++ r.2.1, r.2.2)

/-- What `Program:exit` of a copy reports when the flag is unset. -/
def Copy.exitReport : Copy → Context → Node → List Descriptor
  | .authored, context => Src.exitReport context
  | .compiled, _ => Dist.exitReport

/-! ## The flag of an activation -/

/-- The value of the flag `containsJSX` of the activation made by `create` on
`heap`, after the host has run the given callback invocations on it. The cell
of that activation is the one `create` allocates, at index `heap.length`. -/
def flagAfter (create : Context → Heap → VisitorMap × Heap) (context : Context)
    (events : List Invocation) (heap : Heap) : Bool :=
  let r := create context heap
  (runCallbacks r.1 events r.2).1.getD heap.length false

/-- The number of `Program:exit` invocations of a sequence that occur before
its first `JSXElement` or `JSXFragment` invocation. -/
def exitsBeforeFirstJSX (events : List Invocation) : Nat :=
  ((events.takeWhile (fun e => !e.isJSX)).filter Invocation.isProgramExit).length

/-! ## The rule descriptors -/

/-- A JSON value, for option defaults and option schemas. -/
inductive Json where
  | null
  | bool (b : Bool)
  | num (n : Int)
  | str (s : String)
  | arr (items : List Json)
  | obj (fields : List (String × Json))

/-- The `meta.docs` object of a rule. -/
structure RuleDocs where
  description : String

/-- The `meta` object of a rule. -/
structure RuleMeta where
  type : String
  docs : RuleDocs
  messages : List (String × String)
  schema : List Json

/-- A rule module: the exported descriptor. -/
structure RuleModule where
  defaultOptions : List Json
  meta : RuleMeta
  create : Context → Heap → VisitorMap × Heap

/-- The `rule` object of the authored copy. -/
def Src.rule : RuleModule where
  defaultOptions := []
  meta :=
    { type := "problem"
      docs := { description := "Disallow .tsx files without JSX" }
      messages :=
        [("noJsxInTsx", "This file has a .tsx extension but does not contain any JSX elements.")]
      schema := [] }
  create := Src.create

/-- The `rule` object of the compiled copy. -/
def Dist.rule : RuleModule where
  defaultOptions := []
  meta :=
    { type := "problem"
      docs := { description := "Disallow .tsx files without JSX" }
      messages :=
        [("noJsxInTsx", "This file has a .tsx extension but does not contain any JSX elements.")]
      schema := [] }
  create := Dist.create

/-! ## Sample inputs -/

/-- The scenario AST of the specification: a `Program` containing only a
`VariableDeclaration`. -/
def sampleNoJsx : Node :=
  .mk "Program" [.mk "VariableDeclaration" [.mk "VariableDeclarator" [.mk "Identifier" []]]]

/-- A `Program` with a `JSXElement` nested inside a `FunctionDeclaration` body. -/
def sampleNestedElement : Node :=
  .mk "Program" [.mk "FunctionDeclaration" [.mk "BlockStatement"
    [.mk "ReturnStatement" [.mk "JSXElement" [.mk "JSXOpeningElement" []]]]]]

/-- A `Program` whose only markup is a `JSXFragment`. -/
def sampleFragment : Node :=
  .mk "Program" [.mk "ExpressionStatement" [.mk "JSXFragment" []]]

/-- An empty `Program`: the AST of an empty or comment-only file. -/
def sampleEmpty : Node := .mk "Program" []

/-- A token at line 1, columns 0 to 5. -/
def sampleToken : Token := ⟨"Keyword", "const", ⟨⟨1, 0⟩, ⟨1, 5⟩⟩⟩

/-- A token stream in which every node has the first token `sampleToken`. -/
def tokens : SourceCode := ⟨fun _ => some sampleToken⟩

/-- A token stream in which no node has a first token. -/
def noTokens : SourceCode := ⟨fun _ => none⟩

/-! ## Lemmas on the embedding -/

theorem authored_create_of_tsx (context : Context) (heap : Heap)
    (h : endsWith context.filename ".tsx" = true) :
    Src.create context heap
      = (ruleVisitor (Src.exitReport context) heap.length, heap ++ [false]) := by
  unfold Src.create ruleVisitor
  simp only [h, Bool.not_true, Bool.false_eq_true, if_false]
  refine Prod.ext ?_ rfl
  simp only [List.cons.injEq, Prod.mk.injEq, true_and, and_true]
  funext node hp
  unfold Src.exitReport
  cases context.sourceCode.getFirstToken node <;> simp

theorem compiled_create_of_tsx (context : Context) (heap : Heap)
    (h : endsWith context.filename ".tsx" = true) :
    Dist.create context heap
      = (ruleVisitor Dist.exitReport heap.length, heap ++ [false]) := by
  unfold Dist.create ruleVisitor Dist.exitReport
  simp only [h, Bool.not_true, Bool.false_eq_true, if_false]

theorem authored_create_of_not_tsx (context : Context) (heap : Heap)
    (h : endsWith context.filename ".tsx" = false) :
    Src.create context heap = ([], heap) := by
  unfold Src.create
  simp [h]

theorem compiled_create_of_not_tsx (context : Context) (heap : Heap)
    (h : endsWith context.filename ".tsx" = false) :
    Dist.create context heap = ([], heap) := by
  unfold Dist.create
  simp [h]

theorem invoke_ruleVisitor (exitReport : Node → List Descriptor) (c : Nat)
    (e : Invocation) (h : Heap) :
    invoke (ruleVisitor exitReport c) e.key e.node h
      = if e.isJSX then (h.set c true, [])
        else if e.isProgramExit then (h, if h.getD c false then [] else exitReport e.node)
        else (h, []) := by
  unfold invoke ruleVisitor Invocation.isJSX Invocation.isProgramExit
  by_cases h1 : e.key = "JSXElement"
  · simp [h1, List.lookup]
  · by_cases h2 : e.key = "JSXFragment"
    · simp [h2, List.lookup]
    · by_cases h3 : e.key = "Program:exit"
      · simp only [h3, List.lookup]
        by_cases hf : h[c]?.getD false = true <;> simp [hf]
      · have b1 : (e.key == "JSXElement") = false := by simpa using h1
        have b2 : (e.key == "JSXFragment") = false := by simpa using h2
        have b3 : (e.key == "Program:exit") = false := by simpa using h3
        simp [b1, b2, b3, List.lookup]

theorem runCallbacks_ruleVisitor (exitReport : Node → List Descriptor) (c : Nat)
    (events : List Invocation) (h : Heap) (hc : c < h.length) :
    runCallbacks (ruleVisitor exitReport c) events h
      = (if events.any Invocation.isJSX then h.set c true else h,
         reportsFrom exitReport (h.getD c false) events) := by
  induction events generalizing h with
  | nil => simp [runCallbacks, reportsFrom]
  | cons e rest ih =>
    simp only [runCallbacks, invoke_ruleVisitor, reportsFrom, List.any_cons]
    by_cases hj : e.isJSX = true
    · have hlen : c < (h.set c true).length := by simpa using hc
      have hget : (h.set c true).getD c false = true := by simp [hc]
      simp only [hj, if_true, Bool.true_or]
      rw [ih (h.set c true) hlen, hget]
      simp
    · have hj2 : e.isJSX = false := by simpa using hj
      by_cases hx : e.isProgramExit = true
      · simp only [hj2, hx, if_true, Bool.false_or, Bool.false_eq_true, if_false]
        rw [ih h hc]
      · have hx2 : e.isProgramExit = false := by simpa using hx
        simp only [hj2, hx2, Bool.false_or, Bool.false_eq_true, if_false]
        rw [ih h hc]
        simp

theorem runCallbacks_nil_visitor (events : List Invocation) (h : Heap) :
    runCallbacks [] events h = (h, []) := by
  induction events generalizing h with
  | nil => rfl
  | cons e rest ih => simp [runCallbacks, invoke, List.lookup, ih]

theorem authored_lint_tsx (context : Context) (events : List Invocation) (heap : Heap)
    (h : endsWith context.filename ".tsx" = true) :
    lint Src.create context events heap
      = reportsFrom (Src.exitReport context) false events := by
  unfold lint
  simp only [authored_create_of_tsx context heap h]
  rw [runCallbacks_ruleVisitor _ _ _ _ (by simp)]
  simp

theorem compiled_lint_tsx (context : Context) (events : List Invocation) (heap : Heap)
    (h : endsWith context.filename ".tsx" = true) :
    lint Dist.create context events heap = reportsFrom Dist.exitReport false events := by
  unfold lint
  simp only [compiled_create_of_tsx context heap h]
  rw [runCallbacks_ruleVisitor _ _ _ _ (by simp)]
  simp

theorem authored_lint_not_tsx (context : Context) (events : List Invocation) (heap : Heap)
    (h : endsWith context.filename ".tsx" = false) :
    lint Src.create context events heap = [] := by
  unfold lint
  simp only [authored_create_of_not_tsx context heap h, runCallbacks_nil_visitor]

theorem compiled_lint_not_tsx (context : Context) (events : List Invocation) (heap : Heap)
    (h : endsWith context.filename ".tsx" = false) :
    lint Dist.create context events heap = [] := by
  unfold lint
  simp only [compiled_create_of_not_tsx context heap h, runCallbacks_nil_visitor]

theorem reportsFrom_true (exitReport : Node → List Descriptor) (events : List Invocation) :
    reportsFrom exitReport true events = [] := by
  induction events with
  | nil => rfl
  | cons e rest ih =>
    simp only [reportsFrom, ih, if_true, List.append_nil, ite_self]

theorem reportsFrom_append_of_no_exit (exitReport : Node → List Descriptor) (flag : Bool)
    (pre rest : List Invocation) (hpre : ∀ e ∈ pre, e.isProgramExit = false) :
    reportsFrom exitReport flag (pre ++ rest)
      = reportsFrom exitReport (flag || pre.any Invocation.isJSX) rest := by
  induction pre generalizing flag with
  | nil => simp
  | cons e pre ih =>
    have he : e.isProgramExit = false := hpre e (List.mem_cons_self _ _)
    have hrest : ∀ x ∈ pre, x.isProgramExit = false :=
      fun x hx => hpre x (List.mem_cons_of_mem _ hx)
    show reportsFrom exitReport flag (e :: (pre ++ rest)) = _
    simp only [reportsFrom, he, Bool.false_eq_true, if_false, List.any_cons]
    by_cases hj : e.isJSX = true
    · simp only [hj, if_true, ih true hrest, Bool.true_or, Bool.or_true]
    · have hj2 : e.isJSX = false := by simpa using hj
      simp only [hj2, Bool.false_eq_true, if_false, ih flag hrest, Bool.false_or]

theorem reportsFrom_exit (exitReport : Node → List Descriptor) (flag : Bool) (program : Node) :
    reportsFrom exitReport flag [⟨"Program:exit", program⟩]
      = if flag then [] else exitReport program := by
  simp [reportsFrom, Invocation.isJSX, Invocation.isProgramExit]

/-- The reports of a well-formed traversal: node callbacks none of which is
`Program:exit`, then `Program:exit` once. -/
theorem reportsFrom_wellFormed (exitReport : Node → List Descriptor)
    (pre : List Invocation) (program : Node)
    (hpre : ∀ e ∈ pre, e.isProgramExit = false) :
    reportsFrom exitReport false (pre ++ [⟨"Program:exit", program⟩])
      = if pre.any Invocation.isJSX then [] else exitReport program := by
  rw [reportsFrom_append_of_no_exit exitReport false pre _ hpre, reportsFrom_exit]
  simp

mutual
theorem visit_any_key (ty : String) (hty : endsWith ty ":exit" = false) :
    ∀ n : Node, (visit n).any (fun e => e.key == ty) = containsType ty n
  | .mk t cs => by
    by_cases ht : endsWith t ":exit" = true
    · have hne : (t == ty) = false := by
        rw [beq_eq_false_iff_ne]
        intro h
        rw [h, hty] at ht
        exact Bool.false_ne_true ht
      simp [visit, containsType, visitAll_any_key ty hty cs, ht, hne]
    · simp [visit, containsType, visitAll_any_key ty hty cs, ht]
theorem visitAll_any_key (ty : String) (hty : endsWith ty ":exit" = false) :
    ∀ ns : List Node, (visitAll ns).any (fun e => e.key == ty) = containsTypeAll ty ns
  | [] => by simp [visitAll, containsTypeAll]
  | c :: cs => by
    simp [visitAll, containsTypeAll, visit_any_key ty hty c, visitAll_any_key ty hty cs]
end

theorem visit_any_isJSX (n : Node) :
    (visit n).any Invocation.isJSX
      = (containsType "JSXElement" n || containsType "JSXFragment" n) := by
  rw [← visit_any_key "JSXElement" (by decide) n, ← visit_any_key "JSXFragment" (by decide) n]
  induction visit n with
  | nil => rfl
  | cons e rest ih =>
    simp only [List.any_cons, ih, Invocation.isJSX]
    cases (e.key == "JSXElement") <;> cases (e.key == "JSXFragment") <;> simp

mutual
theorem visit_any_exit :
    ∀ n : Node, (visit n).any Invocation.isProgramExit = false
  | .mk t cs => by
    by_cases ht : endsWith t ":exit" = true
    · simp [visit, ht, visitAll_any_exit cs]
    · have hne : (t == "Program:exit") = false := by
        rw [beq_eq_false_iff_ne]
        intro h
        rw [h] at ht
        exact ht (by decide)
      simp only [visit, ht, Bool.false_eq_true, if_false, List.any_append, List.any_cons,
        List.any_nil, Bool.or_false, visitAll_any_exit cs, Invocation.isProgramExit, hne]
theorem visitAll_any_exit :
    ∀ ns : List Node, (visitAll ns).any Invocation.isProgramExit = false
  | [] => by simp [visitAll]
  | c :: cs => by
    simp [visitAll, visit_any_exit c, visitAll_any_exit cs]
end

theorem visit_no_exit (n : Node) : ∀ e ∈ visit n, e.isProgramExit = false :=
  List.any_eq_false.mp (visit_any_exit n) |> fun h e he => by simpa using h e he

/-! ## The claims -/

/-- C1, as stated, fails: for the authored rule, the file `empty.tsx` with an
empty `Program` and no first token has no JSX node visited, yet the traversal
reports nothing, so "reports one if and only if no JSX node was visited" is
false there. -/
theorem C1_counterexample :
    endsWith "empty.tsx" ".tsx" = true ∧
    ¬ ((lint Src.create ⟨"empty.tsx", noTokens⟩ (traversal sampleEmpty) []).length = 1 ↔
        (visit sampleEmpty).any Invocation.isJSX = false) := by
  decide

/-- C1, amended: for the authored rule, a context whose filename ends with
`.tsx` and a well-formed traversal (node callbacks none of which is
`Program:exit`, then `Program:exit` once with the program node), at most one
diagnostic is reported, and one is reported if and only if no `JSXElement` and
no `JSXFragment` callback was invoked and `getFirstToken` returns a token for
the program node. -/
theorem C1_authored_reports_iff (context : Context) (pre : List Invocation) (program : Node)
    (heap : Heap)
    (htsx : endsWith context.filename ".tsx" = true)
    (hpre : ∀ e ∈ pre, e.isProgramExit = false) :
    (lint Src.create context (pre ++ [⟨"Program:exit", program⟩]) heap).length ≤ 1 ∧
    ((lint Src.create context (pre ++ [⟨"Program:exit", program⟩]) heap).length = 1 ↔
      (pre.any Invocation.isJSX = false ∧
        (context.sourceCode.getFirstToken program).isSome = true)) := by
  rw [authored_lint_tsx context _ heap htsx, reportsFrom_wellFormed _ pre program hpre]
  unfold Src.exitReport
  cases hj : pre.any Invocation.isJSX <;>
    cases ht : context.sourceCode.getFirstToken program <;> simp

/-- Witness of C1 (amended) on `component.tsx` with the scenario AST and a first
token. -/
theorem C1_authored_reports_iff_witness :
    (lint Src.create ⟨"component.tsx", tokens⟩
        (visit sampleNoJsx ++ [⟨"Program:exit", sampleNoJsx⟩]) []).length ≤ 1 ∧
    ((lint Src.create ⟨"component.tsx", tokens⟩
        (visit sampleNoJsx ++ [⟨"Program:exit", sampleNoJsx⟩]) []).length = 1 ↔
      ((visit sampleNoJsx).any Invocation.isJSX = false ∧
        (tokens.getFirstToken sampleNoJsx).isSome = true)) :=
  C1_authored_reports_iff ⟨"component.tsx", tokens⟩ (visit sampleNoJsx) sampleNoJsx []
    (by decide) (visit_no_exit sampleNoJsx)

/-- C2: for the compiled rule, a filename ending in `.tsx` and an AST with no
`JSXElement` and no `JSXFragment` node at any depth, the traversal (the node
callbacks of every node, then `Program:exit` once) reports exactly one
diagnostic, and its messageId is `noJsxInTsx`. -/
theorem C2_compiled_no_jsx_reports_once (context : Context) (program : Node) (heap : Heap)
    (htsx : endsWith context.filename ".tsx" = true)
    (hElement : containsType "JSXElement" program = false)
    (hFragment : containsType "JSXFragment" program = false) :
    (lint Dist.create context (traversal program) heap).length = 1 ∧
    ∀ d ∈ lint Dist.create context (traversal program) heap,
      Descriptor.messageId d = some "noJsxInTsx" := by
  unfold traversal
  rw [compiled_lint_tsx context _ heap htsx,
    reportsFrom_wellFormed _ (visit program) program (visit_no_exit program),
    visit_any_isJSX, hElement, hFragment]
  simp [Dist.exitReport, Descriptor.messageId, List.lookup]

/-- Witness of C2: the scenario of the specification, `component.tsx` with a
`Program` containing only a `VariableDeclaration`. -/
theorem C2_compiled_no_jsx_reports_once_witness :
    (lint Dist.create ⟨"component.tsx", tokens⟩ (traversal sampleNoJsx) []).length = 1 ∧
    ∀ d ∈ lint Dist.create ⟨"component.tsx", tokens⟩ (traversal sampleNoJsx) [],
      Descriptor.messageId d = some "noJsxInTsx" :=
  C2_compiled_no_jsx_reports_once ⟨"component.tsx", tokens⟩ sampleNoJsx []
    (by decide) (by decide) (by decide)

/-- C3: for both copies of the rule, a filename ending in `.tsx` and an AST with
at least one `JSXElement` node or at least one `JSXFragment` node at any depth,
the traversal that visits every node and then fires `Program:exit` reports no
diagnostic. -/
theorem C3_jsx_reports_nothing (context : Context) (program : Node) (heap : Heap)
    (htsx : endsWith context.filename ".tsx" = true)
    (hjsx : containsType "JSXElement" program = true ∨
      containsType "JSXFragment" program = true) :
    lint Src.create context (traversal program) heap = [] ∧
    lint Dist.create context (traversal program) heap = [] := by
  have hany : (visit program).any Invocation.isJSX = true := by
    rw [visit_any_isJSX]
    rcases hjsx with h | h <;> simp [h]
  unfold traversal
  rw [authored_lint_tsx context _ heap htsx, compiled_lint_tsx context _ heap htsx,
    reportsFrom_wellFormed _ (visit program) program (visit_no_exit program),
    reportsFrom_wellFormed _ (visit program) program (visit_no_exit program), hany]
  simp

/-- Witness of C3: a fragment alone, with no element, in `component.tsx`. -/
theorem C3_jsx_reports_nothing_witness :
    lint Src.create ⟨"component.tsx", tokens⟩ (traversal sampleFragment) [] = [] ∧
    lint Dist.create ⟨"component.tsx", tokens⟩ (traversal sampleFragment) [] = [] :=
  C3_jsx_reports_nothing ⟨"component.tsx", tokens⟩ sampleFragment []
    (by decide) (Or.inr (by decide))

/-- The model of `endsWith` is the exact, character-wise suffix test. -/
theorem endsWith_iff_suffix (s searchString : String) :
    endsWith s searchString = true ↔ searchString.data <:+ s.data := by
  unfold endsWith
  by_cases hlen : s.data.length < searchString.data.length
  · simp only [hlen, if_true, Bool.false_eq_true, false_iff]
    intro hsuf
    exact absurd hsuf.length_le (by omega)
  · simp only [hlen, if_false, decide_eq_true_eq]
    rw [List.suffix_iff_eq_drop]
    exact eq_comm

/-- The filenames named by the specification as not matching the marker. -/
theorem endsWith_examples :
    endsWith "foo.ts" ".tsx" = false ∧ endsWith "foo.jsx" ".tsx" = false ∧
    endsWith "foo.tsxx" ".tsx" = false ∧ endsWith "foo.TSX" ".tsx" = false ∧
    endsWith "component.ts" ".tsx" = false ∧ endsWith "component.tsx" ".tsx" = true := by
  decide

/-- C4: extension gating. For both copies of the rule and every filename of
which `.tsx` is not an exact, character-wise suffix, `create` returns the empty
visitor map, and every sequence of callback invocations reports no diagnostic. -/
theorem C4_extension_gating (context : Context) (events : List Invocation) (heap : Heap)
    (hext : ¬ (".tsx".data <:+ context.filename.data)) :
    (Src.create context heap).1 = [] ∧ (Dist.create context heap).1 = [] ∧
    lint Src.create context events heap = [] ∧
    lint Dist.create context events heap = [] := by
  have hfalse : endsWith context.filename ".tsx" = false := by
    rw [← Bool.not_eq_true, endsWith_iff_suffix]
    exact hext
  refine ⟨?_, ?_, authored_lint_not_tsx context events heap hfalse,
    compiled_lint_not_tsx context events heap hfalse⟩
  · rw [authored_create_of_not_tsx context heap hfalse]
  · rw [compiled_create_of_not_tsx context heap hfalse]

/-- Witness of C4: `foo.TSX` (the marker is case-sensitive), on a traversal of an
AST that has no JSX at all. -/
theorem C4_extension_gating_witness :
    (Src.create ⟨"foo.TSX", tokens⟩ []).1 = [] ∧ (Dist.create ⟨"foo.TSX", tokens⟩ []).1 = [] ∧
    lint Src.create ⟨"foo.TSX", tokens⟩ (traversal sampleNoJsx) [] = [] ∧
    lint Dist.create ⟨"foo.TSX", tokens⟩ (traversal sampleNoJsx) [] = [] :=
  C4_extension_gating ⟨"foo.TSX", tokens⟩ (traversal sampleNoJsx) []
    (fun h => absurd ((endsWith_iff_suffix "foo.TSX" ".tsx").mpr h) (by decide))

/-- C5: single-report invariant. For both copies of the rule, every filename,
every token stream and every AST, one file traversal (the node callbacks of
every node, then `Program:exit` once) reports at most one diagnostic. -/
theorem C5_single_report (context : Context) (program : Node) (heap : Heap) :
    (lint Src.create context (traversal program) heap).length ≤ 1 ∧
    (lint Dist.create context (traversal program) heap).length ≤ 1 := by
  cases htsx : endsWith context.filename ".tsx"
  · rw [authored_lint_not_tsx context _ heap htsx, compiled_lint_not_tsx context _ heap htsx]
    simp
  · unfold traversal
    rw [authored_lint_tsx context _ heap htsx, compiled_lint_tsx context _ heap htsx,
      reportsFrom_wellFormed _ (visit program) program (visit_no_exit program),
      reportsFrom_wellFormed _ (visit program) program (visit_no_exit program)]
    unfold Src.exitReport Dist.exitReport
    cases (visit program).any Invocation.isJSX <;>
      cases context.sourceCode.getFirstToken program <;> simp

/-- C6, as stated, fails: two contexts with the same filename `empty.tsx` that
differ only in the first token of the program (one has a token, the other none)
report one and zero diagnostics on the same traversal; without a first token the
authored rule does not report. -/
theorem C6_counterexample :
    endsWith "empty.tsx" ".tsx" = true ∧
    (lint Src.create ⟨"empty.tsx", tokens⟩ (traversal sampleEmpty) []).length = 1 ∧
    (lint Src.create ⟨"empty.tsx", noTokens⟩ (traversal sampleEmpty) []).length = 0 := by
  decide

/-- C6, amended: for the authored rule, a filename ending in `.tsx` and a
well-formed traversal, two token streams that both return a first token for the
program node (whatever the tokens and their locations) give the same number of
diagnostics; and a token stream that returns no first token for the program
node gives no diagnostic. -/
theorem C6_anchor_independence (filename : String) (sc1 sc2 : SourceCode)
    (pre : List Invocation) (program : Node) (heap : Heap)
    (htsx : endsWith filename ".tsx" = true)
    (hpre : ∀ e ∈ pre, e.isProgramExit = false) :
    ((sc1.getFirstToken program).isSome = true →
      (sc2.getFirstToken program).isSome = true →
      (lint Src.create ⟨filename, sc1⟩ (pre ++ [⟨"Program:exit", program⟩]) heap).length
        = (lint Src.create ⟨filename, sc2⟩ (pre ++ [⟨"Program:exit", program⟩]) heap).length) ∧
    (sc1.getFirstToken program = none →
      lint Src.create ⟨filename, sc1⟩ (pre ++ [⟨"Program:exit", program⟩]) heap = []) := by
  rw [authored_lint_tsx ⟨filename, sc1⟩ _ heap htsx, authored_lint_tsx ⟨filename, sc2⟩ _ heap htsx,
    reportsFrom_wellFormed _ pre program hpre, reportsFrom_wellFormed _ pre program hpre]
  unfold Src.exitReport
  constructor
  · intro h1 h2
    cases pre.any Invocation.isJSX
    · cases ht1 : sc1.getFirstToken program
      · simp [ht1] at h1
      · cases ht2 : sc2.getFirstToken program
        · simp [ht2] at h2
        · simp
    · simp
  · intro h1
    cases pre.any Invocation.isJSX <;> simp [h1]

/-- Witness of C6 (amended) on `component.tsx` with the scenario AST. -/
theorem C6_anchor_independence_witness :
    ((tokens.getFirstToken sampleNoJsx).isSome = true →
      ((⟨fun _ => some ⟨"Keyword", "let", ⟨⟨3, 2⟩, ⟨3, 5⟩⟩⟩⟩ : SourceCode).getFirstToken
        sampleNoJsx).isSome = true →
      (lint Src.create ⟨"component.tsx", tokens⟩
        (visit sampleNoJsx ++ [⟨"Program:exit", sampleNoJsx⟩]) []).length
        = (lint Src.create ⟨"component.tsx", ⟨fun _ => some ⟨"Keyword", "let", ⟨⟨3, 2⟩, ⟨3, 5⟩⟩⟩⟩⟩
        (visit sampleNoJsx ++ [⟨"Program:exit", sampleNoJsx⟩]) []).length) ∧
    (tokens.getFirstToken sampleNoJsx = none →
      lint Src.create ⟨"component.tsx", tokens⟩
        (visit sampleNoJsx ++ [⟨"Program:exit", sampleNoJsx⟩]) [] = []) :=
  C6_anchor_independence "component.tsx" tokens
    ⟨fun _ => some ⟨"Keyword", "let", ⟨⟨3, 2⟩, ⟨3, 5⟩⟩⟩⟩ (visit sampleNoJsx) sampleNoJsx []
    (by decide) (visit_no_exit sampleNoJsx)

theorem reportsFrom_messageId_eq (context : Context) (flag : Bool) (events : List Invocation)
    (htok : ∀ e ∈ events, e.isProgramExit = true →
      (context.sourceCode.getFirstToken e.node).isSome = true) :
    (reportsFrom (Src.exitReport context) flag events).map Descriptor.messageId
      = (reportsFrom Dist.exitReport flag events).map Descriptor.messageId := by
  induction events generalizing flag with
  | nil => rfl
  | cons e rest ih =>
    have hrest : ∀ x ∈ rest, x.isProgramExit = true →
        (context.sourceCode.getFirstToken x.node).isSome = true :=
      fun x hx => htok x (List.mem_cons_of_mem _ hx)
    simp only [reportsFrom]
    by_cases hj : e.isJSX = true
    · simp only [hj, if_true, ih true hrest]
    · have hj2 : e.isJSX = false := by simpa using hj
      by_cases hx : e.isProgramExit = true
      · have hsome := htok e (List.mem_cons_self _ _) hx
        obtain ⟨tok, htk⟩ := Option.isSome_iff_exists.mp hsome
        simp only [hj2, hx, Bool.false_eq_true, if_true, if_false, List.map_append,
          ih flag hrest]
        cases flag
        · simp [Src.exitReport, Dist.exitReport, htk, Descriptor.messageId, List.lookup]
        · simp
      · have hx2 : e.isProgramExit = false := by simpa using hx
        simp only [hj2, hx2, Bool.false_eq_true, if_false, ih flag hrest]

/-- C7, as stated, fails: on `empty.tsx` with no first token the two copies
return the same keys, but on the same traversal the authored copy reports no
diagnostic and the compiled copy reports one. -/
theorem C7_counterexample :
    endsWith "empty.tsx" ".tsx" = true ∧
    (lint Src.create ⟨"empty.tsx", noTokens⟩ (traversal sampleEmpty) []).length = 0 ∧
    (lint Dist.create ⟨"empty.tsx", noTokens⟩ (traversal sampleEmpty) []).length = 1 ∧
    ¬ ((lint Src.create ⟨"empty.tsx", noTokens⟩ (traversal sampleEmpty) []).length
        = (lint Dist.create ⟨"empty.tsx", noTokens⟩ (traversal sampleEmpty) []).length) := by
  decide

/-- C7, amended: for every context and every sequence of callback invocations,
the two copies return visitor maps with the same keys; and when `getFirstToken`
returns a token for every node passed to `Program:exit`, they report the same
number of diagnostics with the same messageIds, in the same order. -/
theorem C7_copies_agree (context : Context) (events : List Invocation) (heap : Heap)
    (htok : ∀ e ∈ events, e.isProgramExit = true →
      (context.sourceCode.getFirstToken e.node).isSome = true) :
    VisitorMap.keys (Src.create context heap).1 = VisitorMap.keys (Dist.create context heap).1 ∧
    (lint Src.create context events heap).length = (lint Dist.create context events heap).length ∧
    (lint Src.create context events heap).map Descriptor.messageId
      = (lint Dist.create context events heap).map Descriptor.messageId := by
  have hmap : (lint Src.create context events heap).map Descriptor.messageId
      = (lint Dist.create context events heap).map Descriptor.messageId := by
    cases htsx : endsWith context.filename ".tsx"
    · rw [authored_lint_not_tsx context _ heap htsx, compiled_lint_not_tsx context _ heap htsx]
    · rw [authored_lint_tsx context _ heap htsx, compiled_lint_tsx context _ heap htsx]
      exact reportsFrom_messageId_eq context false events htok
  refine ⟨?_, ?_, hmap⟩
  · cases htsx : endsWith context.filename ".tsx"
    · rw [authored_create_of_not_tsx context heap htsx, compiled_create_of_not_tsx context heap htsx]
    · rw [authored_create_of_tsx context heap htsx, compiled_create_of_tsx context heap htsx]
      rfl
  · have := congrArg List.length hmap
    simpa using this

/-- Witness of C7 (amended): `component.tsx` with a first token, on a sequence
with two `Program:exit` invocations around a `JSXElement` invocation. -/
theorem C7_copies_agree_witness :
    VisitorMap.keys (Src.create ⟨"component.tsx", tokens⟩ []).1
      = VisitorMap.keys (Dist.create ⟨"component.tsx", tokens⟩ []).1 ∧
    (lint Src.create ⟨"component.tsx", tokens⟩
        [⟨"Program:exit", sampleNoJsx⟩, ⟨"JSXElement", sampleEmpty⟩,
          ⟨"Program:exit", sampleNoJsx⟩] []).length
      = (lint Dist.create ⟨"component.tsx", tokens⟩
        [⟨"Program:exit", sampleNoJsx⟩, ⟨"JSXElement", sampleEmpty⟩,
          ⟨"Program:exit", sampleNoJsx⟩] []).length ∧
    (lint Src.create ⟨"component.tsx", tokens⟩
        [⟨"Program:exit", sampleNoJsx⟩, ⟨"JSXElement", sampleEmpty⟩,
          ⟨"Program:exit", sampleNoJsx⟩] []).map Descriptor.messageId
      = (lint Dist.create ⟨"component.tsx", tokens⟩
        [⟨"Program:exit", sampleNoJsx⟩, ⟨"JSXElement", sampleEmpty⟩,
          ⟨"Program:exit", sampleNoJsx⟩] []).map Descriptor.messageId :=
  C7_copies_agree ⟨"component.tsx", tokens⟩
    [⟨"Program:exit", sampleNoJsx⟩, ⟨"JSXElement", sampleEmpty⟩, ⟨"Program:exit", sampleNoJsx⟩] []
    (fun _ _ _ => rfl)

theorem reportsFrom_mem (exitReport : Node → List Descriptor) (flag : Bool)
    (events : List Invocation) (d : Descriptor) (hd : d ∈ reportsFrom exitReport flag events) :
    ∃ e ∈ events, e.key = "Program:exit" ∧ d ∈ exitReport e.node := by
  induction events generalizing flag with
  | nil => simp [reportsFrom] at hd
  | cons e rest ih =>
    simp only [reportsFrom] at hd
    by_cases hj : e.isJSX = true
    · simp only [hj, if_true] at hd
      obtain ⟨x, hx, hk, hm⟩ := ih true hd
      exact ⟨x, List.mem_cons_of_mem _ hx, hk, hm⟩
    · have hj2 : e.isJSX = false := by simpa using hj
      by_cases hx : e.isProgramExit = true
      · simp only [hj2, hx, Bool.false_eq_true, if_true, if_false, List.mem_append] at hd
        rcases hd with hd | hd
        · cases flag
          · refine ⟨e, List.mem_cons_self _ _, ?_, by simpa using hd⟩
            simpa [Invocation.isProgramExit] using hx
          · simp at hd
        · obtain ⟨x, hx, hk, hm⟩ := ih flag hd
          exact ⟨x, List.mem_cons_of_mem _ hx, hk, hm⟩
      · have hx2 : e.isProgramExit = false := by simpa using hx
        simp only [hj2, hx2, Bool.false_eq_true, if_false] at hd
        obtain ⟨x, hx, hk, hm⟩ := ih flag hd
        exact ⟨x, List.mem_cons_of_mem _ hx, hk, hm⟩

theorem compiled_lint_mem (context : Context) (events : List Invocation) (heap : Heap)
    (d : Descriptor) (hd : d ∈ lint Dist.create context events heap) :
    ∃ e ∈ events, e.key = "Program:exit" ∧
      d = [("node", Value.node e.node), ("messageId", Value.str "noJsxInTsx")] := by
  cases htsx : endsWith context.filename ".tsx"
  · rw [compiled_lint_not_tsx context _ heap htsx] at hd
    simp at hd
  · rw [compiled_lint_tsx context _ heap htsx] at hd
    obtain ⟨e, he, hk, hm⟩ := reportsFrom_mem _ _ _ _ hd
    exact ⟨e, he, hk, by simpa [Dist.exitReport] using hm⟩

theorem authored_lint_mem (context : Context) (events : List Invocation) (heap : Heap)
    (d : Descriptor) (hd : d ∈ lint Src.create context events heap) :
    ∃ e ∈ events, e.key = "Program:exit" ∧
      ∃ firstToken, context.sourceCode.getFirstToken e.node = some firstToken ∧
        d = [("loc", Value.loc firstToken.loc), ("messageId", Value.str "noJsxInTsx")] := by
  cases htsx : endsWith context.filename ".tsx"
  · rw [authored_lint_not_tsx context _ heap htsx] at hd
    simp at hd
  · rw [authored_lint_tsx context _ heap htsx] at hd
    obtain ⟨e, he, hk, hm⟩ := reportsFrom_mem _ _ _ _ hd
    refine ⟨e, he, hk, ?_⟩
    unfold Src.exitReport at hm
    cases htk : context.sourceCode.getFirstToken e.node with
    | none => simp [htk] at hm
    | some tok => exact ⟨tok, rfl, by simpa [htk] using hm⟩

/-- C9: every diagnostic reported, on any sequence of callback invocations, is
made by a `Program:exit` invocation and has exactly two fields: a position and
the messageId `noJsxInTsx`. In the compiled copy the position is the field
`node`, the node passed to that `Program:exit`; in the authored copy it is the
field `loc`, the `loc` of the token that `getFirstToken` returns for that
node. -/
theorem C9_descriptor_shape (context : Context) (events : List Invocation) (heap : Heap) :
    (∀ d ∈ lint Dist.create context events heap,
      ∃ e ∈ events, e.key = "Program:exit" ∧
        d = [("node", Value.node e.node), ("messageId", Value.str "noJsxInTsx")]) ∧
    (∀ d ∈ lint Src.create context events heap,
      ∃ e ∈ events, e.key = "Program:exit" ∧
        ∃ firstToken, context.sourceCode.getFirstToken e.node = some firstToken ∧
          d = [("loc", Value.loc firstToken.loc), ("messageId", Value.str "noJsxInTsx")]) :=
  ⟨compiled_lint_mem context events heap, authored_lint_mem context events heap⟩

/-- C10: the rule descriptor of both copies has `defaultOptions` empty,
`meta.type` `problem`, `meta.docs.description` `Disallow .tsx files without
JSX`, `meta.schema` empty, and `meta.messages` with the single key `noJsxInTsx`
mapped to the fixed template; and the messageId of every diagnostic reported
through the `create` of either descriptor is a key of its `meta.messages`. -/
theorem C10_rule_descriptor :
    (Src.rule.defaultOptions = [] ∧ Src.rule.meta.type = "problem" ∧
      Src.rule.meta.docs.description = "Disallow .tsx files without JSX" ∧
      Src.rule.meta.schema = [] ∧
      Src.rule.meta.messages =
        [("noJsxInTsx",
          "This file has a .tsx extension but does not contain any JSX elements.")]) ∧
    (Dist.rule.defaultOptions = [] ∧ Dist.rule.meta.type = "problem" ∧
      Dist.rule.meta.docs.description = "Disallow .tsx files without JSX" ∧
      Dist.rule.meta.schema = [] ∧
      Dist.rule.meta.messages =
        [("noJsxInTsx",
          "This file has a .tsx extension but does not contain any JSX elements.")]) ∧
    (∀ (context : Context) (events : List Invocation) (heap : Heap),
      ∀ d ∈ lint Src.rule.create context events heap,
        ∃ id, Descriptor.messageId d = some id ∧ id ∈ Src.rule.meta.messages.map Prod.fst) ∧
    (∀ (context : Context) (events : List Invocation) (heap : Heap),
      ∀ d ∈ lint Dist.rule.create context events heap,
        ∃ id, Descriptor.messageId d = some id ∧ id ∈ Dist.rule.meta.messages.map Prod.fst) := by
  refine ⟨⟨rfl, rfl, rfl, rfl, rfl⟩, ⟨rfl, rfl, rfl, rfl, rfl⟩, ?_, ?_⟩
  · intro context events heap d hd
    obtain ⟨e, _, _, tok, _, hshape⟩ := authored_lint_mem context events heap d hd
    refine ⟨"noJsxInTsx", ?_, by simp [Src.rule]⟩
    rw [hshape]
    rfl
  · intro context events heap d hd
    obtain ⟨e, _, _, hshape⟩ := compiled_lint_mem context events heap d hd
    refine ⟨"noJsxInTsx", ?_, by simp [Dist.rule]⟩
    rw [hshape]
    rfl

theorem copy_create_of_tsx (copy : Copy) (context : Context) (heap : Heap)
    (h : endsWith context.filename ".tsx" = true) :
    copy.create context heap
      = (ruleVisitor (copy.exitReport context) heap.length, heap ++ [false]) := by
  cases copy
  · exact authored_create_of_tsx context heap h
  · exact compiled_create_of_tsx context heap h

theorem copy_create_of_not_tsx (copy : Copy) (context : Context) (heap : Heap)
    (h : endsWith context.filename ".tsx" = false) :
    copy.create context heap = ([], heap) := by
  cases copy
  · exact authored_create_of_not_tsx context heap h
  · exact compiled_create_of_not_tsx context heap h

theorem copy_lint_tsx (copy : Copy) (context : Context) (events : List Invocation)
    (heap : Heap) (h : endsWith context.filename ".tsx" = true) :
    lint copy.create context events heap
      = reportsFrom (copy.exitReport context) false events := by
  cases copy
  · exact authored_lint_tsx context events heap h
  · exact compiled_lint_tsx context events heap h

theorem copy_lint_not_tsx (copy : Copy) (context : Context) (events : List Invocation)
    (heap : Heap) (h : endsWith context.filename ".tsx" = false) :
    lint copy.create context events heap = [] := by
  cases copy
  · exact authored_lint_not_tsx context events heap h
  · exact compiled_lint_not_tsx context events heap h

theorem reportsFrom_append (exitReport : Node → List Descriptor) (flag : Bool)
    (a b : List Invocation) :
    reportsFrom exitReport flag (a ++ b)
      = reportsFrom exitReport flag a
        ++ reportsFrom exitReport (flag || a.any Invocation.isJSX) b := by
  induction a generalizing flag with
  | nil => simp [reportsFrom]
  | cons e a ih =>
    show reportsFrom exitReport flag (e :: (a ++ b)) = _
    simp only [reportsFrom, List.any_cons]
    by_cases hj : e.isJSX = true
    · simp only [hj, if_true, ih true, Bool.true_or, Bool.or_true]
    · have hj2 : e.isJSX = false := by simpa using hj
      by_cases hx : e.isProgramExit = true
      · simp only [hj2, hx, Bool.false_eq_true, if_true, if_false, ih flag, Bool.false_or,
          List.append_assoc]
      · have hx2 : e.isProgramExit = false := by simpa using hx
        simp only [hj2, hx2, Bool.false_eq_true, if_false, ih flag, Bool.false_or]

theorem runInterleaved_nil_left (visitorB : VisitorMap)
    (schedule : List (Target × Invocation)) (h : Heap) :
    (runInterleaved [] visitorB schedule h).2
      = ([], (runCallbacks visitorB (callbacksOf Target.second schedule) h).2) := by
  induction schedule generalizing h with
  | nil => rfl
  | cons te rest ih =>
    obtain ⟨t, e⟩ := te
    cases t
    · simp [runInterleaved, callbacksOf, invoke, List.lookup, ih]
    · simp [runInterleaved, callbacksOf, runCallbacks, ih]

theorem runInterleaved_nil_right (visitorA : VisitorMap)
    (schedule : List (Target × Invocation)) (h : Heap) :
    (runInterleaved visitorA [] schedule h).2
      = ((runCallbacks visitorA (callbacksOf Target.first schedule) h).2, []) := by
  induction schedule generalizing h with
  | nil => rfl
  | cons te rest ih =>
    obtain ⟨t, e⟩ := te
    cases t
    · simp [runInterleaved, callbacksOf, runCallbacks, ih]
    · simp [runInterleaved, callbacksOf, invoke, List.lookup, ih]

theorem runInterleaved_ruleVisitor (xA xB : Node → List Descriptor) (cA cB : Nat)
    (schedule : List (Target × Invocation)) (h : Heap)
    (hne : cA ≠ cB) (hA : cA < h.length) (hB : cB < h.length) :
    (runInterleaved (ruleVisitor xA cA) (ruleVisitor xB cB) schedule h).2
      = (reportsFrom xA (h.getD cA false) (callbacksOf Target.first schedule),
         reportsFrom xB (h.getD cB false) (callbacksOf Target.second schedule)) := by
  induction schedule generalizing h with
  | nil => rfl
  | cons te rest ih =>
    obtain ⟨t, e⟩ := te
    cases t
    · simp only [runInterleaved, callbacksOf, invoke_ruleVisitor, reportsFrom, if_true]
      by_cases hj : e.isJSX = true
      · have hA2 : cA < (h.set cA true).length := by simpa using hA
        have hB2 : cB < (h.set cA true).length := by simpa using hB
        have hgA : (h.set cA true).getD cA false = true := by simp [hA]
        have hgB : (h.set cA true).getD cB false = h.getD cB false := by
          simp [List.getElem?_set, hne]
        simp only [hj, if_true, ih (h.set cA true) hA2 hB2, hgA, hgB]
        simp
      · have hj2 : e.isJSX = false := by simpa using hj
        by_cases hx : e.isProgramExit = true
        · simp only [hj2, hx, Bool.false_eq_true, if_true, if_false, ih h hA hB]
          simp
        · have hx2 : e.isProgramExit = false := by simpa using hx
          simp only [hj2, hx2, Bool.false_eq_true, if_false, ih h hA hB]
          simp
    · simp only [runInterleaved, callbacksOf, invoke_ruleVisitor, reportsFrom, if_true]
      by_cases hj : e.isJSX = true
      · have hA2 : cA < (h.set cB true).length := by simpa using hA
        have hB2 : cB < (h.set cB true).length := by simpa using hB
        have hgB : (h.set cB true).getD cB false = true := by simp [hB]
        have hgA : (h.set cB true).getD cA false = h.getD cA false := by
          simp [List.getElem?_set, Ne.symm hne]
        simp only [hj, if_true, ih (h.set cB true) hA2 hB2, hgA, hgB]
        simp
      · have hj2 : e.isJSX = false := by simpa using hj
        by_cases hx : e.isProgramExit = true
        · simp only [hj2, hx, Bool.false_eq_true, if_true, if_false, ih h hA hB]
          simp
        · have hx2 : e.isProgramExit = false := by simpa using hx
          simp only [hj2, hx2, Bool.false_eq_true, if_false, ih h hA hB]
          simp

/-- C8: per-file isolation. A call of `create` leaves every existing cell of
the heap as it is and allocates at most one new cell, initialised to false. For
any two activations (of either copy, on any two contexts, also the same context
twice) that share the heap, with the second `create` called after any number of
callbacks of the first, and for any interleaving of their callback invocations,
the diagnostics reported through each activation are those it reports when it
is activated and run alone on its own callbacks. -/
theorem C8_isolation (copyA copyB : Copy) (contextA contextB : Context)
    (before : List Invocation) (schedule : List (Target × Invocation)) (heap : Heap) :
    ((copyA.create contextA heap).2 = heap ∨ (copyA.create contextA heap).2 = heap ++ [false]) ∧
    lintTwo copyA.create copyB.create contextA contextB before schedule heap
      = (lint copyA.create contextA (before ++ callbacksOf Target.first schedule) heap,
         lint copyB.create contextB (callbacksOf Target.second schedule) heap) := by
  constructor
  · cases hA : endsWith contextA.filename ".tsx"
    · exact Or.inl (by rw [copy_create_of_not_tsx copyA contextA heap hA])
    · exact Or.inr (by rw [copy_create_of_tsx copyA contextA heap hA])
  · unfold lintTwo
    cases hA : endsWith contextA.filename ".tsx" <;>
      cases hB : endsWith contextB.filename ".tsx"
    · simp only [copy_create_of_not_tsx copyA contextA heap hA, runCallbacks_nil_visitor,
        copy_create_of_not_tsx copyB contextB heap hB, runInterleaved_nil_left,
        copy_lint_not_tsx copyA contextA _ heap hA, copy_lint_not_tsx copyB contextB _ heap hB,
        List.append_nil]
    · simp only [copy_create_of_not_tsx copyA contextA heap hA, runCallbacks_nil_visitor,
        copy_create_of_tsx copyB contextB heap hB, runInterleaved_nil_left,
        copy_lint_not_tsx copyA contextA _ heap hA, copy_lint_tsx copyB contextB _ heap hB,
        List.append_nil]
      rw [runCallbacks_ruleVisitor _ _ _ _ (by simp)]
      simp
    · simp only [copy_create_of_tsx copyA contextA heap hA,
        copy_lint_tsx copyA contextA _ heap hA, copy_lint_not_tsx copyB contextB _ heap hB]
      rw [runCallbacks_ruleVisitor _ _ before _ (by simp)]
      simp only [copy_create_of_not_tsx copyB contextB _ hB, runInterleaved_nil_right]
      rw [reportsFrom_append]
      by_cases hany : before.any Invocation.isJSX = true
      · simp only [hany, if_true]
        rw [runCallbacks_ruleVisitor _ _ _ _ (by simp)]
        simp
      · have hany2 : before.any Invocation.isJSX = false := by simpa using hany
        simp only [hany2, Bool.false_eq_true, if_false]
        rw [runCallbacks_ruleVisitor _ _ _ _ (by simp)]
        simp
    · simp only [copy_create_of_tsx copyA contextA heap hA,
        copy_lint_tsx copyA contextA _ heap hA, copy_lint_tsx copyB contextB _ heap hB]
      rw [runCallbacks_ruleVisitor _ _ before _ (by simp)]
      simp only [copy_create_of_tsx copyB contextB _ hB]
      rw [reportsFrom_append]
      by_cases hany : before.any Invocation.isJSX = true
      · simp only [hany, if_true]
        rw [runInterleaved_ruleVisitor _ _ _ _ _ _ (by simp) (by simp) (by simp)]
        simp [List.getElem_append_right]
      · have hany2 : before.any Invocation.isJSX = false := by simpa using hany
        simp only [hany2, Bool.false_eq_true, if_false]
        rw [runInterleaved_ruleVisitor _ _ _ _ _ _ (by simp) (by simp) (by simp)]
        simp [List.getElem_append_right]

theorem copy_flagAfter_tsx (copy : Copy) (context : Context) (events : List Invocation)
    (heap : Heap) (h : endsWith context.filename ".tsx" = true) :
    flagAfter copy.create context events heap = events.any Invocation.isJSX := by
  unfold flagAfter
  simp only [copy_create_of_tsx copy context heap h]
  rw [runCallbacks_ruleVisitor _ _ _ _ (by simp)]
  cases events.any Invocation.isJSX <;> simp

/-- C11: monotonic flag. In an activation of either copy for a `.tsx` file the
flag `containsJSX` is false before any callback has run. A `JSXElement` or
`JSXFragment` callback, run after any earlier callbacks, sets it to true, and
after any later callbacks (`JSXElement`, `JSXFragment`, `Program:exit` or
others, in any number and order) it is still true; the JSX callback and
everything after it, every later `Program:exit` included, report nothing. After
any sequence of callbacks the flag is true exactly when a JSX callback was among
them, and from any state in which it is true, later callbacks leave it true and
report nothing more. -/
theorem C11_monotonic_flag (copy : Copy) (context : Context)
    (before later : List Invocation) (e : Invocation) (heap : Heap)
    (htsx : endsWith context.filename ".tsx" = true)
    (hjsx : e.isJSX = true) :
    flagAfter copy.create context [] heap = false ∧
    flagAfter copy.create context (before ++ [e]) heap = true ∧
    flagAfter copy.create context (before ++ e :: later) heap = true ∧
    lint copy.create context (before ++ e :: later) heap = lint copy.create context before heap ∧
    (∀ events : List Invocation,
      flagAfter copy.create context events heap = events.any Invocation.isJSX) ∧
    (∀ events more : List Invocation,
      flagAfter copy.create context events heap = true →
        flagAfter copy.create context (events ++ more) heap = true ∧
        lint copy.create context (events ++ more) heap
          = lint copy.create context events heap) := by
  refine ⟨?_, ?_, ?_, ?_, fun events => copy_flagAfter_tsx copy context events heap htsx, ?_⟩
  · rw [copy_flagAfter_tsx copy context [] heap htsx]
    rfl
  · rw [copy_flagAfter_tsx copy context _ heap htsx]
    simp [hjsx]
  · rw [copy_flagAfter_tsx copy context _ heap htsx]
    simp [hjsx]
  · rw [copy_lint_tsx copy context _ heap htsx, copy_lint_tsx copy context _ heap htsx,
      reportsFrom_append]
    simp only [reportsFrom, hjsx, if_true, reportsFrom_true, List.append_nil]
  · intro events more hset
    have hany : events.any Invocation.isJSX = true := by
      rw [← copy_flagAfter_tsx copy context events heap htsx]
      exact hset
    constructor
    · rw [copy_flagAfter_tsx copy context _ heap htsx, List.any_append, hany]
      rfl
    · rw [copy_lint_tsx copy context _ heap htsx, copy_lint_tsx copy context _ heap htsx,
        reportsFrom_append, hany, Bool.false_or, reportsFrom_true, List.append_nil]

/-- Witness of C11: in `component.tsx`, a `JSXFragment` callback run after a
`Program:exit` sets the flag, and a later `Program:exit`, `JSXElement` and
`Program:exit` leave it set and report nothing more. -/
theorem C11_monotonic_flag_witness :
    flagAfter Copy.compiled.create ⟨"component.tsx", tokens⟩ [] [true] = false ∧
    flagAfter Copy.compiled.create ⟨"component.tsx", tokens⟩
      ([⟨"Program:exit", sampleEmpty⟩] ++ [⟨"JSXFragment", sampleEmpty⟩]) [true] = true ∧
    flagAfter Copy.compiled.create ⟨"component.tsx", tokens⟩
      ([⟨"Program:exit", sampleEmpty⟩] ++ ⟨"JSXFragment", sampleEmpty⟩ ::
        [⟨"Program:exit", sampleEmpty⟩, ⟨"JSXElement", sampleEmpty⟩,
          ⟨"Program:exit", sampleEmpty⟩]) [true] = true ∧
    lint Copy.compiled.create ⟨"component.tsx", tokens⟩
      ([⟨"Program:exit", sampleEmpty⟩] ++ ⟨"JSXFragment", sampleEmpty⟩ ::
        [⟨"Program:exit", sampleEmpty⟩, ⟨"JSXElement", sampleEmpty⟩,
          ⟨"Program:exit", sampleEmpty⟩]) [true]
      = lint Copy.compiled.create ⟨"component.tsx", tokens⟩
        [⟨"Program:exit", sampleEmpty⟩] [true] ∧
    (∀ events : List Invocation,
      flagAfter Copy.compiled.create ⟨"component.tsx", tokens⟩ events [true]
        = events.any Invocation.isJSX) ∧
    (∀ events more : List Invocation,
      flagAfter Copy.compiled.create ⟨"component.tsx", tokens⟩ events [true] = true →
        flagAfter Copy.compiled.create ⟨"component.tsx", tokens⟩ (events ++ more) [true]
          = true ∧
        lint Copy.compiled.create ⟨"component.tsx", tokens⟩ (events ++ more) [true]
          = lint Copy.compiled.create ⟨"component.tsx", tokens⟩ events [true]) :=
  C11_monotonic_flag Copy.compiled ⟨"component.tsx", tokens⟩
    [⟨"Program:exit", sampleEmpty⟩]
    [⟨"Program:exit", sampleEmpty⟩, ⟨"JSXElement", sampleEmpty⟩, ⟨"Program:exit", sampleEmpty⟩]
    ⟨"JSXFragment", sampleEmpty⟩ [true] (by decide) (by decide)

/-- C12: the flag transition is idempotent and does not depend on the kind of
JSX node. In an activation of either copy for a `.tsx` file, after any earlier
callbacks, a non-empty sequence of `JSXElement` and `JSXFragment` callbacks in
any order and mix leaves the heap exactly as one single JSX callback of either
kind does, reports nothing, and a following `Program:exit` reports nothing. -/
theorem C12_idempotent_transition (copy : Copy) (context : Context)
    (before jsxs : List Invocation) (e : Invocation) (program : Node) (heap : Heap)
    (htsx : endsWith context.filename ".tsx" = true)
    (hne : jsxs ≠ [])
    (hall : ∀ x ∈ jsxs, x.isJSX = true)
    (he : e.isJSX = true) :
    (runCallbacks (copy.create context heap).1 (before ++ jsxs) (copy.create context heap).2).1
      = (runCallbacks (copy.create context heap).1 (before ++ [e])
          (copy.create context heap).2).1 ∧
    lint copy.create context (before ++ jsxs) heap = lint copy.create context before heap ∧
    lint copy.create context (jsxs ++ [⟨"Program:exit", program⟩]) heap = [] := by
  have hany : jsxs.any Invocation.isJSX = true := by
    cases jsxs with
    | nil => exact absurd rfl hne
    | cons x rest => simp [hall x (List.mem_cons_self _ _)]
  have hnoexit : ∀ x ∈ jsxs, x.isProgramExit = false := by
    intro x hx
    have hj := hall x hx
    unfold Invocation.isJSX at hj
    unfold Invocation.isProgramExit
    rcases Bool.or_eq_true _ _ ▸ hj with h1 | h1
    · rw [beq_iff_eq] at h1
      rw [h1]
      decide
    · rw [beq_iff_eq] at h1
      rw [h1]
      decide
  refine ⟨?_, ?_, ?_⟩
  · simp only [copy_create_of_tsx copy context heap htsx]
    rw [runCallbacks_ruleVisitor _ _ _ _ (by simp), runCallbacks_ruleVisitor _ _ _ _ (by simp)]
    simp [hany, he]
  · rw [copy_lint_tsx copy context _ heap htsx, copy_lint_tsx copy context _ heap htsx,
      reportsFrom_append]
    have hnil := reportsFrom_append_of_no_exit (copy.exitReport context)
      (false || before.any Invocation.isJSX) jsxs [] hnoexit
    rw [List.append_nil] at hnil
    rw [hnil]
    simp [reportsFrom]
  · rw [copy_lint_tsx copy context _ heap htsx, reportsFrom_wellFormed _ jsxs program hnoexit,
      hany]
    rfl

/-- Witness of C12: in `component.tsx`, an element, a fragment and an element
again leave the heap as one fragment alone does. -/
theorem C12_idempotent_transition_witness :
    (runCallbacks (Copy.authored.create ⟨"component.tsx", tokens⟩ []).1
        ([⟨"VariableDeclaration", sampleEmpty⟩] ++
          [⟨"JSXElement", sampleEmpty⟩, ⟨"JSXFragment", sampleEmpty⟩,
            ⟨"JSXElement", sampleEmpty⟩])
        (Copy.authored.create ⟨"component.tsx", tokens⟩ []).2).1
      = (runCallbacks (Copy.authored.create ⟨"component.tsx", tokens⟩ []).1
          ([⟨"VariableDeclaration", sampleEmpty⟩] ++ [⟨"JSXFragment", sampleEmpty⟩])
          (Copy.authored.create ⟨"component.tsx", tokens⟩ []).2).1 ∧
    lint Copy.authored.create ⟨"component.tsx", tokens⟩
        ([⟨"VariableDeclaration", sampleEmpty⟩] ++
          [⟨"JSXElement", sampleEmpty⟩, ⟨"JSXFragment", sampleEmpty⟩,
            ⟨"JSXElement", sampleEmpty⟩]) []
      = lint Copy.authored.create ⟨"component.tsx", tokens⟩
          [⟨"VariableDeclaration", sampleEmpty⟩] [] ∧
    lint Copy.authored.create ⟨"component.tsx", tokens⟩
        ([⟨"JSXElement", sampleEmpty⟩, ⟨"JSXFragment", sampleEmpty⟩,
            ⟨"JSXElement", sampleEmpty⟩] ++ [⟨"Program:exit", sampleEmpty⟩]) [] = [] :=
  C12_idempotent_transition Copy.authored ⟨"component.tsx", tokens⟩
    [⟨"VariableDeclaration", sampleEmpty⟩]
    [⟨"JSXElement", sampleEmpty⟩, ⟨"JSXFragment", sampleEmpty⟩, ⟨"JSXElement", sampleEmpty⟩]
    ⟨"JSXFragment", sampleEmpty⟩ sampleEmpty []
    (by decide) (by simp) (by decide) (by decide)

/-- C13: for both copies, the keys of the visitor map returned by `create` are
`JSXElement`, `JSXFragment` and `Program:exit`, in this order and nothing else,
when the filename ends in `.tsx`, and there are no keys otherwise; no callback
is registered under any other key; and the visitor map is non-empty if and only
if the filename ends in `.tsx`. -/
theorem C13_visitor_keys (context : Context) (heap : Heap) :
    VisitorMap.keys (Src.create context heap).1
      = (if endsWith context.filename ".tsx" then
          ["JSXElement", "JSXFragment", "Program:exit"] else []) ∧
    VisitorMap.keys (Dist.create context heap).1
      = (if endsWith context.filename ".tsx" then
          ["JSXElement", "JSXFragment", "Program:exit"] else []) ∧
    (∀ key, key ∉ ["JSXElement", "JSXFragment", "Program:exit"] →
      ((Src.create context heap).1.lookup key).isSome = false ∧
      ((Dist.create context heap).1.lookup key).isSome = false) ∧
    ((Src.create context heap).1 ≠ [] ↔ endsWith context.filename ".tsx" = true) ∧
    ((Dist.create context heap).1 ≠ [] ↔ endsWith context.filename ".tsx" = true) := by
  cases htsx : endsWith context.filename ".tsx"
  · rw [authored_create_of_not_tsx context heap htsx, compiled_create_of_not_tsx context heap htsx]
    simp [VisitorMap.keys, List.lookup]
  · rw [authored_create_of_tsx context heap htsx, compiled_create_of_tsx context heap htsx]
    refine ⟨rfl, rfl, ?_, by simp [ruleVisitor], by simp [ruleVisitor]⟩
    intro key hkey
    simp only [List.mem_cons, List.mem_singleton, List.mem_nil_iff, or_false, not_or] at hkey
    have b1 : (key == "JSXElement") = false := by simpa using hkey.1
    have b2 : (key == "JSXFragment") = false := by simpa using hkey.2.1
    have b3 : (key == "Program:exit") = false := by simpa using hkey.2.2
    simp [ruleVisitor, List.lookup, b1, b2, b3]

/-- C14: in an activation of either copy for a `.tsx` file, the `JSXElement` and
`JSXFragment` callbacks are registered, and invoking either on any heap returns
the heap with the cell of the activation set to true and every other cell as it
was, and reports nothing; an invocation that reports anything is an invocation
of `Program:exit`. -/
theorem C14_jsx_callbacks_only_set_flag (copy : Copy) (context : Context) (e : Invocation)
    (h heap : Heap)
    (htsx : endsWith context.filename ".tsx" = true)
    (hjsx : e.isJSX = true) :
    ((copy.create context heap).1.lookup e.key).isSome = true ∧
    invoke (copy.create context heap).1 e.key e.node h = (h.set heap.length true, []) ∧
    (∀ j, j ≠ heap.length →
      (invoke (copy.create context heap).1 e.key e.node h).1[j]? = h[j]?) ∧
    (invoke (copy.create context heap).1 e.key e.node h).1.length = h.length ∧
    (∀ (x : Invocation) (h2 : Heap),
      (invoke (copy.create context heap).1 x.key x.node h2).2 ≠ [] → x.key = "Program:exit") := by
  have hinv : invoke (copy.create context heap).1 e.key e.node h
      = (h.set heap.length true, []) := by
    rw [copy_create_of_tsx copy context heap htsx, invoke_ruleVisitor, hjsx]
    rfl
  refine ⟨?_, hinv, ?_, ?_, ?_⟩
  · rw [copy_create_of_tsx copy context heap htsx]
    unfold Invocation.isJSX at hjsx
    rcases Bool.or_eq_true _ _ ▸ hjsx with h1 | h1
    · rw [beq_iff_eq] at h1
      simp [ruleVisitor, List.lookup, h1]
    · rw [beq_iff_eq] at h1
      simp [ruleVisitor, List.lookup, h1]
  · intro j hj
    rw [hinv]
    simp [List.getElem?_set, Ne.symm hj]
  · rw [hinv]
    simp
  · intro x h2 hrep
    rw [copy_create_of_tsx copy context heap htsx, invoke_ruleVisitor] at hrep
    by_cases hxj : x.isJSX = true
    · simp [hxj] at hrep
    · have hxj2 : x.isJSX = false := by simpa using hxj
      by_cases hxe : x.isProgramExit = true
      · simpa [Invocation.isProgramExit] using hxe
      · have hxe2 : x.isProgramExit = false := by simpa using hxe
        simp [hxj2, hxe2] at hrep

/-- Witness of C14: the `JSXFragment` callback of the compiled copy for
`component.tsx`, created on a heap of two cells and invoked on a heap of three. -/
theorem C14_jsx_callbacks_only_set_flag_witness :
    ((Copy.compiled.create ⟨"component.tsx", tokens⟩ [true, false]).1.lookup
      "JSXFragment").isSome = true ∧
    invoke (Copy.compiled.create ⟨"component.tsx", tokens⟩ [true, false]).1
        "JSXFragment" sampleFragment [true, false, false]
      = ([true, false, false].set 2 true, []) ∧
    (∀ j, j ≠ 2 →
      (invoke (Copy.compiled.create ⟨"component.tsx", tokens⟩ [true, false]).1
        "JSXFragment" sampleFragment [true, false, false]).1[j]? = [true, false, false][j]?) ∧
    (invoke (Copy.compiled.create ⟨"component.tsx", tokens⟩ [true, false]).1
        "JSXFragment" sampleFragment [true, false, false]).1.length = 3 ∧
    (∀ (x : Invocation) (h2 : Heap),
      (invoke (Copy.compiled.create ⟨"component.tsx", tokens⟩ [true, false]).1
        x.key x.node h2).2 ≠ [] → x.key = "Program:exit") :=
  C14_jsx_callbacks_only_set_flag Copy.compiled ⟨"component.tsx", tokens⟩
    ⟨"JSXFragment", sampleFragment⟩ [true, false, false] [true, false] (by decide) (by decide)

/-- C15: for the authored rule, a filename ending in `.tsx` and the traversal of
an AST (the node callbacks of every node, then `Program:exit` once), a
diagnostic is reported if and only if the AST has no `JSXElement` and no
`JSXFragment` node and `getFirstToken` returns a token for the program node;
when the program has no first token, nothing is reported, also when the AST has
no JSX node. -/
theorem C15_authored_needs_first_token (context : Context) (program : Node) (heap : Heap)
    (htsx : endsWith context.filename ".tsx" = true) :
    ((lint Src.create context (traversal program) heap).length = 1 ↔
      (containsType "JSXElement" program = false ∧
        containsType "JSXFragment" program = false ∧
        (context.sourceCode.getFirstToken program).isSome = true)) ∧
    ((lint Src.create context (traversal program) heap) ≠ [] ↔
      (lint Src.create context (traversal program) heap).length = 1) ∧
    (context.sourceCode.getFirstToken program = none →
      lint Src.create context (traversal program) heap = []) := by
  unfold traversal
  rw [authored_lint_tsx context _ heap htsx,
    reportsFrom_wellFormed _ (visit program) program (visit_no_exit program), visit_any_isJSX]
  unfold Src.exitReport
  cases containsType "JSXElement" program <;> cases containsType "JSXFragment" program <;>
    cases context.sourceCode.getFirstToken program <;> simp

/-- Witness of C15: `empty.tsx`, an empty `Program` with no first token; no JSX
node is in the AST and nothing is reported. -/
theorem C15_authored_needs_first_token_witness :
    ((lint Src.create ⟨"empty.tsx", noTokens⟩ (traversal sampleEmpty) []).length = 1 ↔
      (containsType "JSXElement" sampleEmpty = false ∧
        containsType "JSXFragment" sampleEmpty = false ∧
        (noTokens.getFirstToken sampleEmpty).isSome = true)) ∧
    ((lint Src.create ⟨"empty.tsx", noTokens⟩ (traversal sampleEmpty) []) ≠ [] ↔
      (lint Src.create ⟨"empty.tsx", noTokens⟩ (traversal sampleEmpty) []).length = 1) ∧
    (noTokens.getFirstToken sampleEmpty = none →
      lint Src.create ⟨"empty.tsx", noTokens⟩ (traversal sampleEmpty) [] = []) :=
  C15_authored_needs_first_token ⟨"empty.tsx", noTokens⟩ sampleEmpty [] (by decide)

theorem compiled_reportsFrom_length (flag : Bool) (events : List Invocation) :
    (reportsFrom Dist.exitReport flag events).length
      = if flag then 0 else exitsBeforeFirstJSX events := by
  induction events generalizing flag with
  | nil => cases flag <;> rfl
  | cons e rest ih =>
    cases flag
    · simp only [reportsFrom, exitsBeforeFirstJSX, Bool.false_eq_true, if_false]
      by_cases hj : e.isJSX = true
      · simp [hj, reportsFrom_true, List.takeWhile]
      · have hj2 : e.isJSX = false := by simpa using hj
        have ihf := ih false
        simp only [Bool.false_eq_true, if_false, exitsBeforeFirstJSX] at ihf
        by_cases hx : e.isProgramExit = true
        · simp [hj2, hx, List.takeWhile, ihf, Dist.exitReport]
        · have hx2 : e.isProgramExit = false := by simpa using hx
          simp [hj2, hx2, List.takeWhile, ihf]
    · simp [reportsFrom_true]

/-- C16: for the compiled rule, a filename ending in `.tsx` and every finite
sequence of callback invocations, the number of diagnostics reported is the
number of `Program:exit` invocations that occur before the first `JSXElement`
or `JSXFragment` invocation; so at most one diagnostic is reported exactly when
at most one `Program:exit` occurs before any JSX invocation; and invocations
made later, JSX ones included, leave the reports already made in place. -/
theorem C16_compiled_report_count (context : Context) (events later : List Invocation)
    (heap : Heap)
    (htsx : endsWith context.filename ".tsx" = true) :
    (lint Dist.create context events heap).length = exitsBeforeFirstJSX events ∧
    ((lint Dist.create context events heap).length ≤ 1 ↔ exitsBeforeFirstJSX events ≤ 1) ∧
    (∃ more, lint Dist.create context (events ++ later) heap
      = lint Dist.create context events heap ++ more) := by
  have hlen : (lint Dist.create context events heap).length = exitsBeforeFirstJSX events := by
    rw [compiled_lint_tsx context _ heap htsx, compiled_reportsFrom_length]
    rfl
  refine ⟨hlen, by rw [hlen], ?_⟩
  rw [compiled_lint_tsx context _ heap htsx, compiled_lint_tsx context _ heap htsx,
    reportsFrom_append]
  exact ⟨_, rfl⟩

/-- Witness of C16: in `component.tsx`, two `Program:exit` invocations before a
`JSXElement` invocation and one after it give two diagnostics; a `JSXFragment`
invocation made later retracts none. -/
theorem C16_compiled_report_count_witness :
    (lint Dist.create ⟨"component.tsx", tokens⟩
        [⟨"Program:exit", sampleEmpty⟩, ⟨"Identifier", sampleEmpty⟩,
          ⟨"Program:exit", sampleEmpty⟩, ⟨"JSXElement", sampleEmpty⟩,
          ⟨"Program:exit", sampleEmpty⟩] []).length
      = exitsBeforeFirstJSX
        [⟨"Program:exit", sampleEmpty⟩, ⟨"Identifier", sampleEmpty⟩,
          ⟨"Program:exit", sampleEmpty⟩, ⟨"JSXElement", sampleEmpty⟩,
          ⟨"Program:exit", sampleEmpty⟩] ∧
    ((lint Dist.create ⟨"component.tsx", tokens⟩
        [⟨"Program:exit", sampleEmpty⟩, ⟨"Identifier", sampleEmpty⟩,
          ⟨"Program:exit", sampleEmpty⟩, ⟨"JSXElement", sampleEmpty⟩,
          ⟨"Program:exit", sampleEmpty⟩] []).length ≤ 1 ↔
      exitsBeforeFirstJSX
        [⟨"Program:exit", sampleEmpty⟩, ⟨"Identifier", sampleEmpty⟩,
          ⟨"Program:exit", sampleEmpty⟩, ⟨"JSXElement", sampleEmpty⟩,
          ⟨"Program:exit", sampleEmpty⟩] ≤ 1) ∧
    (∃ more, lint Dist.create ⟨"component.tsx", tokens⟩
        ([⟨"Program:exit", sampleEmpty⟩, ⟨"Identifier", sampleEmpty⟩,
          ⟨"Program:exit", sampleEmpty⟩, ⟨"JSXElement", sampleEmpty⟩,
          ⟨"Program:exit", sampleEmpty⟩] ++ [⟨"JSXFragment", sampleEmpty⟩]) []
      = lint Dist.create ⟨"component.tsx", tokens⟩
        [⟨"Program:exit", sampleEmpty⟩, ⟨"Identifier", sampleEmpty⟩,
          ⟨"Program:exit", sampleEmpty⟩, ⟨"JSXElement", sampleEmpty⟩,
          ⟨"Program:exit", sampleEmpty⟩] [] ++ more) :=
  C16_compiled_report_count ⟨"component.tsx", tokens⟩
    [⟨"Program:exit", sampleEmpty⟩, ⟨"Identifier", sampleEmpty⟩, ⟨"Program:exit", sampleEmpty⟩,
      ⟨"JSXElement", sampleEmpty⟩, ⟨"Program:exit", sampleEmpty⟩]
    [⟨"JSXFragment", sampleEmpty⟩] [] (by decide)

end NoTsxWithoutJsx
